import Mathlib

/-!
Verification development for the employee-compensation Streamlit apps
(`src/app.py` and `src/.streamlit/app.py`).

The two scripts share a pandas-based core: per-source numeric coercion of
compensation-like columns ("Normalizer"), row-wise stacking / joining of
sources ("Combiner"), and a row-wise total-compensation computation with
summary statistics ("Aggregator").  We embed that core shallowly:

* a `Table` is a row count plus an ordered list of named columns of cells,
  mirroring a `DataFrame` (the row count models the index length, which
  pandas keeps even for a zero-column frame);
* a `Cell` is a number, a raw string, or a missing value (`NaN`);
* numbers are exact rationals.  `pandas.to_numeric` string parsing is
  modelled by `parseNumeric` (optional sign, digits, at most one decimal
  point, an optional `e`/`E` exponent, surrounding whitespace), and
  Python's `str()` of a numeric value by `decRepr`, which follows the
  CPython float rendering rule: positional notation while the decimal
  exponent of the value lies in `[-4, 16)`, and scientific notation
  (`1e-05`, `1.5e+16`) outside that range.  Every numeric produced by
  parsing has a denominator dividing a power of ten, so the rendering is
  exact wherever it is reached.
-/

/-- A single spreadsheet cell: a numeric value, a raw string, or `NaN`. -/
inductive Cell where
  | num (q : ℚ)
  | str (s : String)
  | missing
deriving DecidableEq

/-- A data frame: an index length (`nrows`) and named, ordered columns.
Pandas keeps the index even when all columns are dropped, so the row count
is stored separately from the column data. -/
structure Table where
  nrows : Nat
  cols : List (String × List Cell)
deriving DecidableEq

/-- A table is well formed when every column holds one cell per row. -/
def WFTable (t : Table) : Prop := ∀ p ∈ t.cols, p.2.length = t.nrows

instance (t : Table) : Decidable (WFTable t) := by
  unfold WFTable; infer_instance

/-- Substring test on character lists, modelling Python's `term in col`. -/
def containsSeq (hay needle : List Char) : Bool :=
  match hay with
  | [] => needle.isEmpty
  | _ :: t => needle.isPrefixOf hay || containsSeq t needle

/-- Column-name vocabulary match: `any(term in col for term in vocab)`. -/
def nameMatches (vocab : List String) (name : String) : Bool :=
  vocab.any (fun t => containsSeq name.toList t.toList)

/-- The ingestion-time vocabulary (`numeric_columns` in both scripts). -/
def ingestVocab : List String :=
  ["Base Salary", "Annual Bonus", "Benefits",
   "Stock Options", "Retirement Contribution", "Total Compensation"]

/-- The suggestion vocabulary used to preselect compensation columns. -/
def suggestVocab : List String :=
  ["Salary", "Bonus", "Benefits", "Stock", "Retirement", "Compensation"]

/-- Characters kept by the cleaning regex `[^\d.]` replacement. -/
def isDigitOrDot (c : Char) : Bool := c.isDigit || c = '.'

/-- Model of `.str.replace(r'[^\d.]', '', regex=True)` on one string. -/
def stripNonNumeric (s : String) : String := ⟨s.toList.filter isDigitOrDot⟩

/-- Drop whitespace from both ends of a character list. -/
def trimChars (l : List Char) : List Char :=
  ((l.dropWhile Char.isWhitespace).reverse.dropWhile Char.isWhitespace).reverse

/-- Value of a most-significant-first digit string. -/
def digitsToNat (l : List Char) : Nat :=
  l.foldl (fun n c => n * 10 + (c.toNat - 48)) 0

/-- Every character is a decimal digit. -/
def allDigits (l : List Char) : Bool := l.all Char.isDigit

/-- Split at the first decimal point, if any. -/
def splitDot : List Char → List Char × Option (List Char)
  | [] => ([], none)
  | c :: t =>
    if c = '.' then ([], some t)
    else
      let r := splitDot t
      (c :: r.1, r.2)

/-- Parse an unsigned decimal numeral: digits with at most one point and
at least one digit overall.  The result is the scaled integer value and
the number of decimal places, so `"3.25" ↦ (325, 2)`.  A second point
lands in the fractional part and fails the digit test, so `1.2.3` is
rejected as pandas does. -/
def parseRawU (body : List Char) : Option (Nat × Nat) :=
  match splitDot body with
  | (w, none) =>
    if !w.isEmpty && allDigits w then some (digitsToNat w, 0) else none
  | (w, some f) =>
    if (!w.isEmpty || !f.isEmpty) && allDigits w && allDigits f then
      some (digitsToNat w * 10 ^ f.length + digitsToNat f, f.length)
    else none

/-- An exponent marker, lower or upper case, as `float()` accepts. -/
def isExpChar (c : Char) : Bool := c = 'e' || c = 'E'

/-- Split at the first exponent marker, if any. -/
def splitExp : List Char → List Char × Option (List Char)
  | [] => ([], none)
  | c :: t =>
    if isExpChar c then ([], some t)
    else
      let r := splitExp t
      (c :: r.1, r.2)

/-- Parse the signed integer exponent after the `e` marker. -/
def parseExpRaw (l : List Char) : Option Int :=
  match l with
  | '-' :: d =>
    if !d.isEmpty && allDigits d then some (-(digitsToNat d : Int)) else none
  | '+' :: d =>
    if !d.isEmpty && allDigits d then some ((digitsToNat d : Int)) else none
  | d =>
    if !d.isEmpty && allDigits d then some ((digitsToNat d : Int)) else none

/-- Parse an unsigned numeral with its optional exponent part, as in
`1.5e-3`: the mantissa's scaled value and decimal places, plus the
exponent (0 when absent). -/
def parseRawE (body : List Char) : Option ((Nat × Nat) × Int) :=
  match splitExp body with
  | (mant, none) => (parseRawU mant).map (fun p => (p, (0 : Int)))
  | (mant, some ex) =>
    match parseRawU mant, parseExpRaw ex with
    | some p, some e => some (p, e)
    | _, _ => none

/-- Parse a signed decimal numeral after trimming whitespace, keeping the
sign flag, the scaled mantissa and the exponent. -/
def parseRaw (l : List Char) : Option (Bool × (Nat × Nat) × Int) :=
  match trimChars l with
  | [] => none
  | c :: rest =>
    if c = '-' then (parseRawE rest).map (fun p => (true, p))
    else if c = '+' then (parseRawE rest).map (fun p => (false, p))
    else (parseRawE (c :: rest)).map (fun p => (false, p))

/-- The rational value of a parsed numeral. -/
def ratOfRaw : Bool × (Nat × Nat) × Int → ℚ
  | (sg, (n, k), e) =>
    (if sg then -1 else 1) * (n : ℚ) / ((10 ^ k : ℕ) : ℚ) * (10 : ℚ) ^ e

/-- Parse a character list to its rational value. -/
def parseChars (l : List Char) : Option ℚ := (parseRaw l).map ratOfRaw

/-- Model of `pd.to_numeric(s, errors='coerce')` on one string: `none`
is the NaN outcome. -/
def parseNumeric (s : String) : Option ℚ := parseChars s.toList

/-- Repeated division by a factor, with explicit fuel so that the
recursion is structural (the fuel `n` always suffices since each step at
least halves the argument). -/
def countFactorFuel (p : Nat) : Nat → Nat → Nat
  | 0, _ => 0
  | fuel + 1, n =>
    if 1 < p ∧ 0 < n ∧ p ∣ n then countFactorFuel p fuel (n / p) + 1 else 0

/-- Number of times `p` divides `n`. -/
def countFactor (p n : Nat) : Nat := countFactorFuel p n n

/-- Decimal exponent used to render a denominator exactly: for
`d = 2^a * 5^b` this is `a + b` (up to the order of extraction). -/
def decExp (d : Nat) : Nat :=
  countFactor 5 (d / 2 ^ countFactor 2 d) + countFactor 2 d

/-- Most-significant-first digit characters of a positive natural, with
explicit fuel so that the recursion is structural. -/
def natDigitsAux : Nat → Nat → List Char
  | 0, _ => []
  | fuel + 1, n =>
    if n = 0 then [] else natDigitsAux fuel (n / 10) ++ [Nat.digitChar (n % 10)]

/-- Most-significant-first decimal digit characters of a natural. -/
def natDigits (n : Nat) : List Char :=
  if n = 0 then ['0'] else natDigitsAux n n

/-- Left-pad with zero characters to width `k`. -/
def padZeros (k : Nat) (l : List Char) : List Char :=
  List.replicate (k - l.length) '0' ++ l

/-- Positional decimal rendering of a nonnegative rational whose
denominator is a product of twos and fives (always the case for values
produced by `parseNumeric`); e.g. `5/2 ↦ "2.5"`.  A non-minimal scaling
exponent can leave trailing fractional zeros (`1/10 ↦ "0.10"`), which do
not affect the parsed-back value. -/
def decChars (q : ℚ) : List Char :=
  if decExp q.den = 0 then natDigits (q.num.toNat * (10 ^ decExp q.den / q.den))
  else
    natDigits (q.num.toNat * (10 ^ decExp q.den / q.den) / 10 ^ decExp q.den)
      ++ '.' :: padZeros (decExp q.den)
        (natDigits (q.num.toNat * (10 ^ decExp q.den / q.den) % 10 ^ decExp q.den))

/-- The scaled integer mantissa of a nonnegative rational with a
ten-smooth denominator: `q = mantVal q / 10 ^ decExp q.den`. -/
def mantVal (q : ℚ) : Nat := q.num.toNat * (10 ^ decExp q.den / q.den)

/-- Drop trailing zero characters (CPython prints the shortest mantissa
in scientific notation). -/
def dropTrailingZeros (l : List Char) : List Char :=
  (l.reverse.dropWhile (fun c => c = '0')).reverse

/-- The decimal exponent of the leading digit of a positive rational:
`10 ^ sciExp q ≤ q < 10 ^ (sciExp q + 1)`. -/
def sciExp (q : ℚ) : Int :=
  ((natDigits (mantVal q)).length : Int) - 1 - (decExp q.den : Int)

/-- CPython's `str()`/`repr()` of a float uses scientific notation
exactly when the decimal exponent is below -4 or at least 16. -/
def usesSci (q : ℚ) : Bool :=
  if q = 0 then false else decide (sciExp q < -4 ∨ 16 ≤ sciExp q)

/-- The exponent suffix of a scientific rendering: a mandatory sign and
at least two digits, as in `e-05` or `e+16`. -/
def expChars (e : Int) : List Char :=
  if e < 0 then '-' :: padZeros 2 (natDigits (-e).toNat)
  else '+' :: padZeros 2 (natDigits e.toNat)

/-- Scientific rendering of a nonnegative rational with a ten-smooth
denominator: shortest mantissa with one leading digit, then the
exponent, as in `1e-05` or `1.5e+16`. -/
def sciChars (q : ℚ) : List Char :=
  match dropTrailingZeros (natDigits (mantVal q)) with
  | [] => ['0']
  | d :: rest =>
    d :: ((if rest.isEmpty then [] else '.' :: rest) ++ 'e' :: expChars (sciExp q))

/-- Rendering of a nonnegative numeric value: positional within the
fixed-notation range, scientific outside it, following CPython. -/
def floatChars (q : ℚ) : List Char :=
  if usesSci q then sciChars q else decChars q

/-- Model of Python's `str()` on a numeric value. -/
def decRepr (q : ℚ) : String :=
  if q < 0 then ⟨'-' :: floatChars (-q)⟩ else ⟨floatChars q⟩

/-- Model of `.astype(str)` on one cell (`str(nan) = "nan"`). -/
def cellToStr : Cell → String
  | .num q => decRepr q
  | .str s => s
  | .missing => "nan"

/-- Model of `.fillna(0)` on one cell. -/
def fillZero : Cell → Cell
  | .missing => .num 0
  | c => c

/-- String-to-cell result of `pd.to_numeric(·, errors='coerce')`. -/
def parseCell (s : String) : Cell :=
  match parseNumeric s with
  | some q => .num q
  | none => .missing

/-- Model of `pd.to_numeric(col, errors='coerce')` on one cell: numeric
values pass through, strings are parsed, `NaN` stays `NaN`. -/
def toNumericCell : Cell → Cell
  | .num q => .num q
  | .str s => parseCell s
  | .missing => .missing

/-- One cell of the Google-Sheets cleaning pipeline
(`src/app.py:114-118`): `astype(str)`, strip `[^\d.]`, `to_numeric`,
`fillna(0)`. -/
def sheetsCoerceCell (c : Cell) : Cell :=
  fillZero (parseCell (stripNonNumeric (cellToStr c)))

/-- One cell of the file-ingestion cleaning pipeline
(`src/app.py:149-150`, `src/.streamlit/app.py:47-48`): `to_numeric` then
`fillna(0)`, with no character stripping. -/
def ingestCoerceCell (c : Cell) : Cell :=
  fillZero (toNumericCell c)

/-- The Google-Sheets Normalizer (`src/app.py:110-118`): every column
whose name contains an `ingestVocab` term is stripped, parsed and
zero-filled; other columns are untouched. -/
def normalizeSheets (t : Table) : Table :=
  ⟨t.nrows, t.cols.map fun p =>
    if nameMatches ingestVocab p.1 then (p.1, p.2.map sheetsCoerceCell) else p⟩

/-- The file-ingestion Normalizer (`src/app.py:147-150`,
`src/.streamlit/app.py:45-48`): matching columns are parsed and
zero-filled directly, with no stripping step. -/
def normalizeIngest (t : Table) : Table :=
  ⟨t.nrows, t.cols.map fun p =>
    if nameMatches ingestVocab p.1 then (p.1, p.2.map ingestCoerceCell) else p⟩

/-- Modelled from the spec (§4.1 wording, used only as the comparison
point of claim C3): "strip any character that is not a digit or decimal
point, attempt numeric parse, and replace unparseable or missing cells
with 0" on every vocabulary-matching column. -/
def specNormalizeCell (c : Cell) : Cell :=
  match parseNumeric (stripNonNumeric (cellToStr c)) with
  | some q => .num q
  | none => .num 0

/-- Modelled from the spec (§4.1): the Normalizer the specification
describes, parametrised by the vocabulary. -/
def normalizeSpec (vocab : List String) (t : Table) : Table :=
  ⟨t.nrows, t.cols.map fun p =>
    if nameMatches vocab p.1 then (p.1, p.2.map specNormalizeCell) else p⟩

/-- The ordered column names of a table (`df.columns`). -/
def colNames (t : Table) : List String := t.cols.map Prod.fst

/-- Find a column's data by name, `none` when absent. -/
def findColData (t : Table) (n : String) : Option (List Cell) :=
  (t.cols.find? (fun p => p.1 == n)).map Prod.snd

/-- Column access `df[n]`, defaulting to no cells when absent. -/
def lookupCol (t : Table) (n : String) : List Cell := (findColData t n).getD []

/-- Column projection `df[list(names)]`: keeps the index length. -/
def selectCols (t : Table) (ns : List String) : Table :=
  ⟨t.nrows, ns.map fun n => (n, lookupCol t n)⟩

/-- Columns of `t1` also present in `t2` (the intersection of the
column-name sets; Python iterates a set, so only the set matters). -/
def commonCols (t1 t2 : Table) : List String :=
  (colNames t1).filter (fun n => (colNames t2).contains n)

/-- Equality of the two column-name sets (`excel_cols != sheets_cols`). -/
def sameColSet (t1 t2 : Table) : Bool :=
  (colNames t1).all (fun n => (colNames t2).contains n) &&
  (colNames t2).all (fun n => (colNames t1).contains n)

/-- Model of `pd.concat([t1, t2], ignore_index=True)` for frames with the
same column-name set: columns are aligned by name and the row index is
renumbered `0..N-1` (positional in this embedding). -/
def appendTables (t1 t2 : Table) : Table :=
  ⟨t1.nrows + t2.nrows, t1.cols.map fun p => (p.1, p.2 ++ lookupCol t2 p.1)⟩

/-- The stacking combiner of `src/app.py:242-278`: matching column sets
are appended directly; otherwise (with the proceed-anyway checkbox) both
frames are restricted to the common columns first.  There is no check
that the intersection is non-empty. -/
def combineStack (t1 t2 : Table) : Table :=
  if sameColSet t1 t2 then appendTables t1 t2
  else appendTables (selectCols t1 (commonCols t1 t2))
    (selectCols t2 (commonCols t1 t2))

/-- The running column intersection of `src/.streamlit/app.py:84-88`:
starting from the first source's columns, each further source either
matches the running set or intersects it. -/
def commonColsAll : List Table → List String
  | [] => []
  | t :: rest =>
    rest.foldl
      (fun acc t2 =>
        if acc.all ((colNames t2).contains ·) && (colNames t2).all (acc.contains ·)
        then acc
        else acc.filter ((colNames t2).contains ·))
      (colNames t)

/-- The Combine-All-Sources stacking of `src/.streamlit/app.py:81-93`:
every source is restricted to the common columns and the results are
concatenated with a renumbered index.  Again no emptiness check. -/
def combineAll (ts : List Table) : Table :=
  ⟨(ts.map Table.nrows).sum,
   (commonColsAll ts).map fun n => (n, ts.foldr (fun t acc => lookupCol t n ++ acc) [])⟩

/-- Model of `pd.api.types.is_numeric_dtype`: a column holds a numeric
dtype exactly when no cell is a raw string (an all-numeric-and-NaN
column is a float column). -/
def isNumericDtype (col : List Cell) : Bool :=
  col.all fun c => match c with | .str _ => false | _ => true

/-- Model of `astype(str)` followed by the `[^\d.]` strip on one cell. -/
def stripCellStr (c : Cell) : Cell := .str (stripNonNumeric (cellToStr c))

/-- The aggregation-time coercion of one selected column
(`src/app.py:358-365`, `src/.streamlit/app.py:132-139`): columns that
are not numeric dtype are stringified and stripped first; `to_numeric`
and `fillna(0)` run on every selected column, numeric or not. -/
def aggCoerceCol (col : List Cell) : List Cell :=
  let col1 := if isNumericDtype col then col else col.map stripCellStr
  (col1.map toNumericCell).map fillZero

/-- Apply the aggregation coercion to every selected column of the
working table (the `for col in selected_columns` loop). -/
def aggApply (t : Table) (sel : List String) : Table :=
  ⟨t.nrows, t.cols.map fun p => if sel.contains p.1 then (p.1, aggCoerceCol p.2) else p⟩

/-- Numeric reading of a cell inside a sum (`NaN` counts as 0, matching
pandas' skipna summation; after coercion no cell is missing anyway). -/
def cellValue : Cell → ℚ
  | .num q => q
  | _ => 0

/-- The derived column `calc_df[selected_columns].sum(axis=1)`: the
row-wise sum across exactly the selected columns. -/
def derivedCol (t : Table) (sel : List String) : List ℚ :=
  (List.range t.nrows).map fun i =>
    sel.foldl (fun a n => a + cellValue ((lookupCol t n).getD i .missing)) 0

/-- Column assignment `df[n] = d`: replaces an existing column in place,
otherwise appends it on the right. -/
def setCol (t : Table) (n : String) (d : List Cell) : Table :=
  if (colNames t).contains n then
    ⟨t.nrows, t.cols.map fun p => if p.1 == n then (n, d) else p⟩
  else ⟨t.nrows, t.cols ++ [(n, d)]⟩

/-- The name of the derived column. -/
def totalColName : String := "Calculated Total Compensation"

/-- The working table after coercion plus the derived total column
(`calc_df` after line 368 of `src/app.py` / line 142 of the variant). -/
def calcTable (t : Table) (sel : List String) : Table :=
  let t1 := aggApply t sel
  setCol t1 totalColName ((derivedCol t1 sel).map Cell.num)

/-- The grand total `calc_df['Calculated Total Compensation'].sum()`. -/
def grandTotal (t : Table) (sel : List String) : ℚ :=
  ((lookupCol (calcTable t sel) totalColName).map cellValue).sum

/-- The average `total_comp / len(calc_df)` as the code computes it when
the division statement is reached. -/
def avgValue (t : Table) (sel : List String) : ℚ :=
  grandTotal t sel / (t.nrows : ℚ)

/-- Model of `DataFrame.empty`: true when either axis has length zero. -/
def pandasEmpty (t : Table) : Bool := t.nrows == 0 || t.cols.isEmpty

/-- Divisor of the average-compensation division in `src/app.py`, `none`
when that statement is unreachable: the analysis block runs only under
`combined_df is not None and not combined_df.empty` (line 334) and
`if selected_columns:` (line 353); the division is at line 393. -/
def avgDivisorMain (c : Option Table) (sel : List String) : Option Nat :=
  match c with
  | none => none
  | some t =>
    if pandasEmpty t then none
    else if sel.isEmpty then none
    else some t.nrows

/-- Divisor of the average-compensation division in
`src/.streamlit/app.py`, `none` when that statement is unreachable: the
analysis block only checks `combined_df is None` (line 103) and
`if selected_columns:` (line 127); the division is at line 167.  There
is no emptiness guard. -/
def avgDivisorVariant (c : Option Table) (sel : List String) : Option Nat :=
  match c with
  | none => none
  | some t =>
    if sel.isEmpty then none
    else some t.nrows

/-- Per-component sum `calc_df[col].sum()` used by the chart. -/
def componentSum (t : Table) (sel : List String) (n : String) : ℚ :=
  ((lookupCol (calcTable t sel) n).map cellValue).sum

/-- The chart breakdown (`chart_data`, `src/app.py:404-407`): one
`(component, amount)` row per selected column in selection order, then
the grand total as final entry. -/
def chartData (t : Table) (sel : List String) : List (String × ℚ) :=
  sel.map (fun n => (n, componentSum t sel n)) ++ [("Total", grandTotal t sel)]

/-- One row of the department breakdown: group key, sum, mean and count
of the derived column. -/
structure DeptRow where
  dept : Cell
  total : ℚ
  avg : ℚ
  count : ℕ
deriving DecidableEq

/-- Keys not seen yet, in order of first appearance. -/
def dedupAux (seen : List Cell) : List Cell → List Cell
  | [] => []
  | c :: t => if seen.contains c then dedupAux seen t else c :: dedupAux (c :: seen) t

/-- Group keys in order of first appearance (ties in the later
descending sort are broken arbitrarily by pandas' quicksort, so the
initial key order is immaterial to the specified behavior). -/
def dedupKeys (l : List Cell) : List Cell := dedupAux [] l

/-- The derived values of the rows belonging to one group key. -/
def groupRows (dcol : List Cell) (dvals : List ℚ) (k : Cell) : List ℚ :=
  ((dcol.zip dvals).filter (fun p => p.1 == k)).map Prod.snd

/-- Insertion into a list kept descending by group total. -/
def insertDesc (x : DeptRow) : List DeptRow → List DeptRow
  | [] => [x]
  | y :: t => if y.total ≤ x.total then x :: y :: t else y :: insertDesc x t

/-- Sort descending by group total
(`sort_values('Total Compensation', ascending=False)`). -/
def sortDesc : List DeptRow → List DeptRow
  | [] => []
  | x :: t => insertDesc x (sortDesc t)

/-- The department breakdown (`dept_data`, `src/app.py:415-417`):
group the derived column by the `Department` column, aggregate sum,
mean and count per group, and sort descending by the group sum. -/
def deptData (t : Table) (sel : List String) : List DeptRow :=
  let ct := calcTable t sel
  let dcol := lookupCol ct "Department"
  let dvals := (lookupCol ct totalColName).map cellValue
  sortDesc ((dedupKeys dcol).map fun k =>
    let g := groupRows dcol dvals k
    ⟨k, g.sum, g.sum / (g.length : ℚ), g.length⟩)

/-- The worked example of spec §8: three employees with Salary, Bonus,
Benefits and Department columns (plus a numeric column that is not
selected, which must not contribute). -/
def exampleTable : Table :=
  ⟨3, [("Department", [.str "Engineering", .str "Marketing", .str "Finance"]),
       ("Salary", [.num 75000, .num 65000, .num 80000]),
       ("Bonus", [.num 5000, .num 3000, .num 7000]),
       ("Benefits", [.num 12000, .num 10000, .num 13000]),
       ("Stock", [.num 1000, .num 2000, .num 3000])]⟩

/-- The selection of the worked example. -/
def exampleSel : List String := ["Salary", "Bonus", "Benefits"]

/-- The worked example after aggregation: the original columns plus the
derived total column. -/
def exampleCalc : Table :=
  ⟨3, exampleTable.cols ++ [(totalColName, [.num 92000, .num 78000, .num 100000])]⟩

/-- A one-column table used for the disjoint-stacking analysis. -/
def tabA : Table := ⟨1, [("A", [.num 1])]⟩

/-- A second one-column table with a disjoint column set. -/
def tabB : Table := ⟨1, [("B", [.num 2])]⟩

/-- A two-row table for the matching-columns stacking analysis. -/
def tabC : Table := ⟨2, [("A", [.num 1, .num 2]), ("B", [.str "x", .str "y"])]⟩

/-- A one-row table with the same column set as `tabC`, listed in the
other order. -/
def tabD : Table := ⟨1, [("B", [.num 7]), ("A", [.missing])]⟩

/-- A zero-row table with one compensation column, as produced by
uploading a header-only CSV. -/
def emptyTab : Table := ⟨0, [("Base Salary", [])]⟩

/-- A table whose matching column holds a currency-formatted string,
plus a non-matching column. -/
def cexTable : Table :=
  ⟨1, [("Base Salary", [.str "$500"]), ("Name", [.str "Ann"])]⟩

/-- A cell is in the fixed-notation range when it is not a number whose
`str()` switches to scientific notation. -/
def cellFixed : Cell → Bool
  | .num q => !(usesSci q)
  | _ => true

/-- The rational `1 / 100000 = 1e-05` in reduced form, so that its
numerator and denominator are available definitionally. -/
def q100k : ℚ := ⟨1, 100000, by norm_num, Nat.coprime_one_left 100000⟩

/-- A table whose matching cell coerces to a value small enough that
Python renders it in scientific notation. -/
def sciCex : Table := ⟨1, [("Base Salary", [.str "0.00001"])]⟩

/-- A table whose matching cell coerces to a fixed-notation value. -/
def fixTab : Table := ⟨1, [("Name", [.str "Ann"]), ("Benefits", [.str "250"])]⟩

example : stripNonNumeric "$5,00.25x" = "500.25" := by decide
example : parseRaw "500.25".toList = some (false, (50025, 2), 0) := by decide
example : parseNumeric "500.25" = some (2001 / 4 : ℚ) := by
  have h : parseRaw "500.25".toList = some (false, (50025, 2), 0) := by decide
  rw [parseNumeric, parseChars, h]; norm_num [ratOfRaw]
example : parseNumeric "-500" = some (-500 : ℚ) := by
  have h : parseRaw "-500".toList = some (true, (500, 0), 0) := by decide
  rw [parseNumeric, parseChars, h]; norm_num [ratOfRaw]
example : parseRaw "$500".toList = none := by decide
example : parseNumeric "$500" = none := by
  have h : parseRaw "$500".toList = none := by decide
  rw [parseNumeric, parseChars, h]; rfl
example : parseRaw "1.2.3".toList = none := by decide
example : parseRaw "".toList = none := by decide
example : parseRaw " 42 ".toList = some (false, (42, 0), 0) := by decide
example : parseRaw "1e5".toList = some (false, (1, 0), 5) := by decide
example : parseNumeric "1e5" = some (100000 : ℚ) := by
  have h : parseRaw "1e5".toList = some (false, (1, 0), 5) := by decide
  rw [parseNumeric, parseChars, h]; norm_num [ratOfRaw]
example : parseNumeric "1.5E-3" = some (3 / 2000 : ℚ) := by
  have h : parseRaw "1.5E-3".toList = some (false, (15, 1), -3) := by decide
  rw [parseNumeric, parseChars, h]; norm_num [ratOfRaw]
example : parseRaw "1e".toList = none := by decide
example : parseRaw "e5".toList = none := by decide
example : decRepr 250 = "250" := by decide
example : decRepr (q100k) = "1e-05" := by decide

/-- A `fillZero` result is never a missing cell. -/
theorem fillZero_ne_missing (c : Cell) : fillZero c ≠ .missing := by
  cases c <;> simp [fillZero]

/-- A well-formed column found by name has the table's row count. -/
theorem lookupCol_length (t : Table) (n : String) (hwf : WFTable t)
    (hmem : n ∈ colNames t) : (lookupCol t n).length = t.nrows := by
  have hex : ∃ p ∈ t.cols, (p.1 == n) = true := by
    obtain ⟨p, hp, hpn⟩ := List.mem_map.mp hmem
    exact ⟨p, hp, by simp [hpn]⟩
  have hsome := List.find?_isSome.mpr hex
  cases hfind : t.cols.find? (fun p => p.1 == n) with
  | none => rw [hfind] at hsome; simp at hsome
  | some q =>
    have hq : q ∈ t.cols := List.mem_of_find?_eq_some hfind
    rw [lookupCol, findColData, hfind]
    exact hwf q hq

/-- Claim C1 counterexample: stacking two tables with disjoint column
sets does produce a combined table — a zero-column table carrying the
summed row count — in both the pairwise and the multi-source combiner,
so no failure outcome occurs and a partial table with zero columns is
exactly what is produced. -/
theorem claim1_counterexample :
    (combineStack tabA tabB).cols = [] ∧ (combineStack tabA tabB).nrows = 2 ∧
    (combineAll [tabA, tabB]).cols = [] ∧ (combineAll [tabA, tabB]).nrows = 2 := by
  decide

/-- Claim C1 (amended): for every pair of input tables with disjoint
column-name sets, the stacking combiner does not fail: it produces a
combined table with zero columns whose row count is the sum of the
inputs' row counts (both in the pairwise stacking of `src/app.py` and in
the multi-source stacking of `src/.streamlit/app.py`). -/
theorem claim1_stack_disjoint (t1 t2 : Table)
    (h : ∀ n ∈ colNames t1, n ∉ colNames t2) :
    (combineStack t1 t2).cols = [] ∧
    (combineStack t1 t2).nrows = t1.nrows + t2.nrows ∧
    (combineAll [t1, t2]).cols = [] ∧
    (combineAll [t1, t2]).nrows = t1.nrows + t2.nrows := by
  have hcommon : commonCols t1 t2 = [] := by
    rw [commonCols, List.filter_eq_nil_iff]
    intro n hn
    simp only [List.elem_iff]
    exact fun hmem => h n hn hmem
  refine ⟨?_, ?_, ?_, ?_⟩
  · rw [combineStack]
    by_cases hs : sameColSet t1 t2 = true
    · rw [if_pos hs]
      have h1 : colNames t1 = [] := by
        rw [sameColSet, Bool.and_eq_true, List.all_eq_true, List.all_eq_true] at hs
        rw [List.eq_nil_iff_forall_not_mem]
        intro n hn
        exact h n hn (List.elem_iff.mp (hs.1 n hn))
      have : t1.cols = [] := List.map_eq_nil_iff.mp h1
      simp [appendTables, this]
    · rw [if_neg hs]
      simp [appendTables, selectCols, hcommon]
  · rw [combineStack]
    by_cases hs : sameColSet t1 t2 = true
    · rw [if_pos hs]; rfl
    · rw [if_neg hs]; rfl
  · have hall : commonColsAll [tabA, tabB] = [] := by decide
    rw [combineAll]
    have hcc : commonColsAll [t1, t2] = [] := by
      rw [commonColsAll]
      simp only [List.foldl_cons, List.foldl_nil]
      by_cases hb : ((colNames t1).all ((colNames t2).contains ·) &&
          (colNames t2).all ((colNames t1).contains ·)) = true
      · rw [if_pos hb]
        rw [Bool.and_eq_true, List.all_eq_true, List.all_eq_true] at hb
        rw [List.eq_nil_iff_forall_not_mem]
        intro n hn
        exact h n hn (List.elem_iff.mp (hb.1 n hn))
      · rw [if_neg hb, List.filter_eq_nil_iff]
        intro n hn
        exact fun hmem => h n hn (List.elem_iff.mp hmem)
    simp [hcc]
  · rw [combineAll]
    simp

/-- Claim C1 witness: the amended statement instantiated at the concrete
disjoint pair. -/
theorem claim1_witness :
    (combineStack tabA tabB).nrows = tabA.nrows + tabB.nrows ∧
    (combineAll [tabA, tabB]).cols = [] := by
  have h := claim1_stack_disjoint tabA tabB (by decide)
  exact ⟨h.2.1, h.2.2.1⟩

/-- Claim C2: on a zero-row working table the `src/.streamlit/app.py`
variant does reach the average division with divisor 0 (its gate only
checks `combined_df is None`), while `src/app.py` makes the division
unreachable through its `not combined_df.empty` gate; so the claimed
guard is absent from one of the two cited implementations. -/
theorem claim2_zero_row_division :
    emptyTab.nrows = 0 ∧
    avgDivisorVariant (some emptyTab) ["Base Salary"] = some 0 ∧
    avgDivisorMain (some emptyTab) ["Base Salary"] = none := by
  decide

/-- Claim C6: stacking two well-formed tables whose column-name sets
coincide yields a table with row count the sum of the inputs' row counts
and with every output column of exactly that length (the output index is
positional `0..N-1` in this embedding, matching `ignore_index=True`). -/
theorem claim6_stack_row_counts (t1 t2 : Table) (h1 : WFTable t1)
    (h2 : WFTable t2) (hset : sameColSet t1 t2 = true) :
    (combineStack t1 t2).nrows = t1.nrows + t2.nrows ∧
    ∀ p ∈ (combineStack t1 t2).cols, p.2.length = t1.nrows + t2.nrows := by
  rw [combineStack, if_pos hset]
  rw [sameColSet, Bool.and_eq_true, List.all_eq_true, List.all_eq_true] at hset
  refine ⟨rfl, ?_⟩
  intro p hp
  rw [appendTables] at hp
  simp only [List.mem_map] at hp
  obtain ⟨q, hq, rfl⟩ := hp
  have hqn : q.1 ∈ colNames t2 := by
    have : q.1 ∈ colNames t1 := List.mem_map.mpr ⟨q, hq, rfl⟩
    exact List.elem_iff.mp (hset.1 q.1 this)
  simp only [List.length_append]
  rw [h1 q hq, lookupCol_length t2 q.1 h2 hqn]

/-- Claim C6 witness: the statement at concrete tables whose column sets
agree but are listed in different orders. -/
theorem claim6_witness :
    (combineStack tabC tabD).nrows = 3 ∧
    ∀ p ∈ (combineStack tabC tabD).cols, p.2.length = 3 := by
  have h := claim6_stack_row_counts tabC tabD (by decide) (by decide) (by decide)
  exact ⟨h.1, h.2⟩

/-- Claim C10: the aggregation-time coercion leaves no missing cell in
any selected column, and on a column that is already numeric dtype it
acts exactly as `fillna(0)` — missing values become 0 while numeric
values are untouched (the stripping step being skipped). -/
theorem claim10_fillzero_all (col : List Cell) :
    (∀ c ∈ aggCoerceCol col, c ≠ .missing) ∧
    (isNumericDtype col = true → aggCoerceCol col = col.map fillZero) := by
  constructor
  · intro c hc
    rw [aggCoerceCol] at hc
    simp only [List.map_map, List.mem_map] at hc
    obtain ⟨b, _, rfl⟩ := hc
    exact fillZero_ne_missing _
  · intro hnum
    rw [aggCoerceCol, if_pos hnum, List.map_map]
    refine List.map_congr_left ?_
    intro a ha
    rw [isNumericDtype, List.all_eq_true] at hnum
    have := hnum a ha
    cases a with
    | num q => rfl
    | str s => simp at this
    | missing => rfl

/-- Claim C10 witness: the statement at a numeric column containing a
missing value; the missing cell becomes the number 0. -/
theorem claim10_witness :
    (∀ c ∈ aggCoerceCol [Cell.num 5, Cell.missing], c ≠ .missing) ∧
    aggCoerceCol [Cell.num 5, Cell.missing] = [Cell.num 5, Cell.num 0] := by
  have h := claim10_fillzero_all [Cell.num 5, Cell.missing]
  exact ⟨h.1, (h.2 (by decide)).trans (by decide)⟩

/-- Aggregation-time coercion is the identity on the worked example: all
selected columns are already numeric. -/
theorem aggApply_example : aggApply exampleTable exampleSel = exampleTable := by
  decide

/-- The derived column of the worked example. -/
theorem derivedCol_example :
    derivedCol exampleTable exampleSel = [92000, 78000, 100000] := by
  simp [derivedCol, exampleSel, lookupCol, findColData, exampleTable, List.range_succ,
    cellValue]
  norm_num

/-- The worked example's calculation table appends the derived totals. -/
theorem calcTable_example : calcTable exampleTable exampleSel = exampleCalc := by
  rw [calcTable, aggApply_example, derivedCol_example, setCol]
  norm_num [colNames, exampleTable, exampleCalc]
  decide

/-- The derived column as stored in the calculation table. -/
theorem totalCol_example :
    lookupCol (calcTable exampleTable exampleSel) totalColName
      = [.num 92000, .num 78000, .num 100000] := by
  rw [calcTable_example]; decide

/-- The grand total of the worked example. -/
theorem grandTotal_example : grandTotal exampleTable exampleSel = 270000 := by
  have h3 : lookupCol exampleCalc totalColName
      = [.num 92000, .num 78000, .num 100000] := by decide
  rw [grandTotal, calcTable_example, h3]
  norm_num [cellValue]

/-- Claim C4: on the worked example the derived column is the row-wise
sum across exactly the selected columns (the unselected `Department` and
`Stock` columns contribute nothing), the grand total is 270000 and the
average is 90000. -/
theorem claim4_example_totals :
    derivedCol (aggApply exampleTable exampleSel) exampleSel
      = [92000, 78000, 100000] ∧
    lookupCol (calcTable exampleTable exampleSel) totalColName
      = [.num 92000, .num 78000, .num 100000] ∧
    grandTotal exampleTable exampleSel = 270000 ∧
    avgValue exampleTable exampleSel = 90000 := by
  refine ⟨?_, totalCol_example, grandTotal_example, ?_⟩
  · rw [aggApply_example]; exact derivedCol_example
  · rw [avgValue, grandTotal_example]
    norm_num [exampleTable]

/-- Claim C7: for every working table and non-empty selection, the chart
breakdown has one entry per selected column plus one final entry: entry
`i` pairs the `i`-th selected column with that column's total, and the
final entry is the grand total. -/
theorem claim7_chart_breakdown (t : Table) (sel : List String)
    (_hsel : sel ≠ []) :
    (chartData t sel).length = sel.length + 1 ∧
    (∀ i, i < sel.length →
      (chartData t sel).getD i ("", 0)
        = (sel.getD i "", componentSum t sel (sel.getD i ""))) ∧
    (chartData t sel).getLast? = some ("Total", grandTotal t sel) := by
  refine ⟨by simp [chartData], ?_, by rw [chartData]; exact List.getLast?_concat _⟩
  intro i hi
  rw [chartData]
  rw [List.getD_append _ _ _ i (by simpa using hi)]
  have h1 : (sel.map (fun n => (n, componentSum t sel n)))[i]?
      = some (sel[i], componentSum t sel sel[i]) := by
    rw [List.getElem?_map, List.getElem?_eq_getElem hi]
    rfl
  have h2 : sel.getD i "" = sel[i] := by
    rw [List.getD_eq_getElem?_getD, List.getElem?_eq_getElem hi]
    rfl
  rw [List.getD_eq_getElem?_getD, h1, h2]
  rfl

/-- Claim C7 witness: the statement instantiated on the worked example;
the final chart entry carries the grand total 270000. -/
theorem claim7_witness :
    (chartData exampleTable exampleSel).length = 4 ∧
    (chartData exampleTable exampleSel).getLast? = some ("Total", 270000) := by
  have h := claim7_chart_breakdown exampleTable exampleSel (by decide)
  refine ⟨h.1.trans (by decide), h.2.2.trans ?_⟩
  rw [grandTotal_example]

/-- Membership in an insertion step. -/
theorem mem_insertDesc (x z : DeptRow) (l : List DeptRow) :
    z ∈ insertDesc x l ↔ z = x ∨ z ∈ l := by
  induction l with
  | nil => simp [insertDesc]
  | cons y t ih =>
    rw [insertDesc]
    by_cases hc : y.total ≤ x.total
    · rw [if_pos hc]
      simp [List.mem_cons]
    · rw [if_neg hc]
      simp only [List.mem_cons, ih]
      tauto

/-- Inserting into a descending list keeps it descending. -/
theorem pairwise_insertDesc (x : DeptRow) (l : List DeptRow)
    (h : List.Pairwise (fun a b => b.total ≤ a.total) l) :
    List.Pairwise (fun a b => b.total ≤ a.total) (insertDesc x l) := by
  induction l with
  | nil => simp [insertDesc]
  | cons y t ih =>
    rw [insertDesc]
    rcases List.pairwise_cons.mp h with ⟨hy, ht⟩
    by_cases hc : y.total ≤ x.total
    · rw [if_pos hc]
      refine List.pairwise_cons.mpr ⟨?_, h⟩
      intro z hz
      rcases List.mem_cons.mp hz with rfl | hz'
      · exact hc
      · exact le_trans (hy z hz') hc
    · rw [if_neg hc]
      refine List.pairwise_cons.mpr ⟨?_, ih ht⟩
      intro z hz
      rcases (mem_insertDesc x z t).mp hz with rfl | hz'
      · exact le_of_not_le hc
      · exact hy z hz'

/-- The descending sort really is descending. -/
theorem pairwise_sortDesc (l : List DeptRow) :
    List.Pairwise (fun a b => b.total ≤ a.total) (sortDesc l) := by
  induction l with
  | nil => simp [sortDesc]
  | cons x t ih => exact pairwise_insertDesc x (sortDesc t) ih

/-- The descending sort permutes, so preserves membership. -/
theorem mem_sortDesc (z : DeptRow) (l : List DeptRow) :
    z ∈ sortDesc l ↔ z ∈ l := by
  induction l with
  | nil => simp [sortDesc]
  | cons x t ih =>
    rw [sortDesc, mem_insertDesc, ih, List.mem_cons]

/-- Deduplicated keys come from the original list. -/
theorem dedupAux_subset (seen l : List Cell) (k : Cell)
    (h : k ∈ dedupAux seen l) : k ∈ l := by
  induction l generalizing seen with
  | nil => simp [dedupAux] at h
  | cons c t ih =>
    rw [dedupAux] at h
    by_cases hc : seen.contains c = true
    · rw [if_pos hc] at h
      exact List.mem_cons_of_mem c (ih _ h)
    · rw [if_neg hc] at h
      rcases List.mem_cons.mp h with rfl | h'
      · exact List.mem_cons_self _ _
      · exact List.mem_cons_of_mem c (ih _ h')

/-- The department breakdown of the worked example: one group per
department, count 1 each, descending by total. -/
theorem deptData_example : deptData exampleTable exampleSel =
    [⟨.str "Finance", 100000, 100000, 1⟩,
     ⟨.str "Engineering", 92000, 92000, 1⟩,
     ⟨.str "Marketing", 78000, 78000, 1⟩] := by
  have h3 : lookupCol exampleCalc totalColName
      = [.num 92000, .num 78000, .num 100000] := by decide
  have h4 : lookupCol exampleCalc "Department"
      = [.str "Engineering", .str "Marketing", .str "Finance"] := by decide
  have h5 : List.map cellValue [Cell.num 92000, .num 78000, .num 100000]
      = [(92000 : ℚ), 78000, 100000] := by simp [cellValue]
  rw [deptData, calcTable_example, h3, h4, h5]
  have h6 : dedupKeys [Cell.str "Engineering", .str "Marketing", .str "Finance"]
      = [Cell.str "Engineering", .str "Marketing", .str "Finance"] := by decide
  have h7 : groupRows [Cell.str "Engineering", .str "Marketing", .str "Finance"]
      [(92000 : ℚ), 78000, 100000] (Cell.str "Engineering") = [(92000 : ℚ)] := by decide
  have h8 : groupRows [Cell.str "Engineering", .str "Marketing", .str "Finance"]
      [(92000 : ℚ), 78000, 100000] (Cell.str "Marketing") = [(78000 : ℚ)] := by decide
  have h9 : groupRows [Cell.str "Engineering", .str "Marketing", .str "Finance"]
      [(92000 : ℚ), 78000, 100000] (Cell.str "Finance") = [(100000 : ℚ)] := by decide
  rw [h6]
  simp only [List.map, h7, h8, h9]
  norm_num [sortDesc, insertDesc]

/-- Claim C8: whenever the working table has a `Department` column, the
group breakdown is ordered descending by group sum, every group's mean
is its sum over its count, every group key is a value of the department
column; on the worked example this yields Finance 100000, Engineering
92000, Marketing 78000, each with count 1. -/
theorem claim8_department_breakdown :
    (∀ t sel, (colNames t).contains "Department" = true →
      List.Pairwise (fun a b => b.total ≤ a.total) (deptData t sel) ∧
      ∀ g ∈ deptData t sel, g.avg = g.total / (g.count : ℚ) ∧
        g.dept ∈ lookupCol (calcTable t sel) "Department") ∧
    deptData exampleTable exampleSel =
      [⟨.str "Finance", 100000, 100000, 1⟩,
       ⟨.str "Engineering", 92000, 92000, 1⟩,
       ⟨.str "Marketing", 78000, 78000, 1⟩] := by
  refine ⟨?_, deptData_example⟩
  intro t sel _hdep
  constructor
  · rw [deptData]
    exact pairwise_sortDesc _
  · intro g hg
    rw [deptData] at hg
    rw [mem_sortDesc] at hg
    simp only [List.mem_map] at hg
    obtain ⟨k, hk, rfl⟩ := hg
    exact ⟨rfl, dedupAux_subset [] _ k hk⟩

/-- Claim C8 witness: the general statement instantiated on the worked
example, whose breakdown is descending. -/
theorem claim8_witness :
    List.Pairwise (fun a b => b.total ≤ a.total)
      (deptData exampleTable exampleSel) :=
  (claim8_department_breakdown.1 exampleTable exampleSel (by decide)).1

/-- A digit character is not whitespace. -/
theorem isDigit_not_ws (c : Char) (h : c.isDigit = true) :
    c.isWhitespace = false := by
  rw [Char.isWhitespace]
  simp only [Bool.or_eq_false_iff, decide_eq_false_iff_not]
  refine ⟨⟨⟨?_, ?_⟩, ?_⟩, ?_⟩ <;> rintro rfl <;> exact absurd h (by decide)

/-- Characters kept by the strip are digits or the decimal point. -/
theorem isDigitOrDot_iff (c : Char) :
    isDigitOrDot c = true ↔ c.isDigit = true ∨ c = '.' := by
  rw [isDigitOrDot]
  simp

/-- A kept character is not whitespace. -/
theorem digitOrDot_not_ws (c : Char) (h : isDigitOrDot c = true) :
    c.isWhitespace = false := by
  rcases (isDigitOrDot_iff c).mp h with hd | rfl
  · exact isDigit_not_ws c hd
  · decide

/-- A kept character is not a minus sign. -/
theorem digitOrDot_ne_minus (c : Char) (h : isDigitOrDot c = true) :
    ¬(c = '-') := by
  rintro rfl
  exact absurd h (by decide)

/-- A kept character is not a plus sign. -/
theorem digitOrDot_ne_plus (c : Char) (h : isDigitOrDot c = true) :
    ¬(c = '+') := by
  rintro rfl
  exact absurd h (by decide)

/-- Dropping-while over a list none of whose elements satisfies the
predicate is the identity. -/
theorem dropWhile_eq_self_of (p : Char → Bool) (l : List Char)
    (h : ∀ c ∈ l, p c = false) : l.dropWhile p = l := by
  cases l with
  | nil => rfl
  | cons a t =>
    rw [List.dropWhile_cons, if_neg]
    simp [h a (List.mem_cons_self a t)]

/-- Trimming a whitespace-free list is the identity. -/
theorem trimChars_eq_self (l : List Char)
    (h : ∀ c ∈ l, c.isWhitespace = false) : trimChars l = l := by
  rw [trimChars, dropWhile_eq_self_of _ _ h, dropWhile_eq_self_of, List.reverse_reverse]
  intro c hc
  exact h c (List.mem_reverse.mp hc)

/-- A kept character is not an exponent marker. -/
theorem digitOrDot_not_exp (c : Char) (h : isDigitOrDot c = true) :
    isExpChar c = false := by
  rcases (isDigitOrDot_iff c).mp h with hd | rfl
  · rw [isExpChar]
    simp only [Bool.or_eq_false_iff, decide_eq_false_iff_not]
    constructor <;> rintro rfl <;> exact absurd hd (by decide)
  · decide

/-- Splitting a string with no exponent marker finds none. -/
theorem splitExp_no_exp (l : List Char) (h : ∀ c ∈ l, isExpChar c = false) :
    splitExp l = (l, none) := by
  induction l with
  | nil => rfl
  | cons c t ih =>
    rw [splitExp]
    rw [if_neg (by simp [h c (List.mem_cons_self c t)])]
    rw [ih (fun x hx => h x (List.mem_cons_of_mem c hx))]

/-- On a stripped string the signed parser reduces to the unsigned one:
neither a sign character nor an exponent marker survives the strip, so
no negative value and no exponent can arise. -/
theorem parseRaw_digitOrDot (l : List Char)
    (h : ∀ c ∈ l, isDigitOrDot c = true) :
    parseRaw l = (parseRawU l).map (fun p => (false, p, (0 : Int))) := by
  have htrim : trimChars l = l :=
    trimChars_eq_self l (fun c hc => digitOrDot_not_ws c (h c hc))
  have hE : parseRawE l = (parseRawU l).map (fun p => (p, (0 : Int))) := by
    unfold parseRawE
    rw [splitExp_no_exp l (fun c hc => digitOrDot_not_exp c (h c hc))]
  unfold parseRaw
  rw [htrim]
  cases l with
  | nil => decide
  | cons c rest =>
    have hc := h c (List.mem_cons_self c rest)
    simp only [if_neg (digitOrDot_ne_minus c hc), if_neg (digitOrDot_ne_plus c hc)]
    rw [hE, Option.map_map]
    rfl

/-- An unsigned parse value is nonnegative. -/
theorem ratOfRaw_nonneg (n k : Nat) (e : Int) :
    0 ≤ ratOfRaw (false, (n, k), e) := by
  simp only [ratOfRaw, if_neg Bool.false_ne_true]
  positivity

/-- An unsigned parse value has denominator dividing a power of ten. -/
theorem ratOfRaw_den_dvd (n k : Nat) (e : Int) :
    (ratOfRaw (false, (n, k), e)).den ∣ 10 ^ (k + e.natAbs) := by
  have key : ∀ (N D : ℕ), ((((N : ℚ)) / ((D : ℕ) : ℚ)).den) ∣ D := by
    intro N D
    have h1 : ((N : ℚ)) / ((D : ℕ) : ℚ) = Rat.divInt (N : ℤ) ((D : ℕ) : ℤ) := by
      rw [Rat.divInt_eq_div]
      push_cast
      ring
    rw [h1]
    have h2 := Rat.den_dvd (N : ℤ) ((D : ℕ) : ℤ)
    exact_mod_cast h2
  cases e with
  | ofNat a =>
    have hval : ratOfRaw (false, (n, k), Int.ofNat a)
        = ((n * 10 ^ a : ℕ) : ℚ) / ((10 ^ k : ℕ) : ℚ) := by
      simp only [ratOfRaw, if_neg Bool.false_ne_true, Int.ofNat_eq_coe, zpow_natCast]
      push_cast
      ring
    rw [hval]
    have := key (n * 10 ^ a) (10 ^ k)
    calc ((((n * 10 ^ a : ℕ) : ℚ) / ((10 ^ k : ℕ) : ℚ)).den) ∣ 10 ^ k := this
      _ ∣ 10 ^ (k + (Int.ofNat a).natAbs) := pow_dvd_pow 10 (Nat.le_add_right k _)
  | negSucc a =>
    rw [Int.natAbs_negSucc]
    have hval : ratOfRaw (false, (n, k), Int.negSucc a)
        = ((n : ℕ) : ℚ) / ((10 ^ (k + (a + 1)) : ℕ) : ℚ) := by
      simp only [ratOfRaw, if_neg Bool.false_ne_true, zpow_negSucc]
      push_cast
      rw [pow_add]
      have h10 : ((10 : ℚ)) ^ k ≠ 0 := by positivity
      have h10b : ((10 : ℚ)) ^ (a + 1) ≠ 0 := by positivity
      field_simp
      left
      ring
    rw [hval]
    exact key n (10 ^ (k + (a + 1)))

/-- The characters surviving a strip are all digits or dots. -/
theorem strip_chars (s : String) :
    ∀ ch ∈ (stripNonNumeric s).toList, isDigitOrDot ch = true := by
  intro ch hch
  rw [stripNonNumeric] at hch
  exact (List.mem_filter.mp hch).2

/-- The Google-Sheets cell coercion always yields a nonnegative number
whose denominator divides a power of ten. -/
theorem sheetsCoerceCell_spec (c : Cell) :
    ∃ q : ℚ, sheetsCoerceCell c = .num q ∧ 0 ≤ q ∧ ∃ m, q.den ∣ 10 ^ m := by
  rw [sheetsCoerceCell, parseCell, parseNumeric, parseChars,
    parseRaw_digitOrDot _ (strip_chars (cellToStr c))]
  cases hU : parseRawU (stripNonNumeric (cellToStr c)).toList with
  | none =>
    refine ⟨0, by simp [fillZero], le_refl 0, 0, by rw [pow_zero, Rat.den_ofNat]⟩
  | some p =>
    obtain ⟨n, k⟩ := p
    exact ⟨ratOfRaw (false, (n, k), 0), by simp [fillZero],
      ratOfRaw_nonneg n k 0, k + (0 : Int).natAbs, ratOfRaw_den_dvd n k 0⟩

/-- Parsing the stripped string "500" gives the raw numeral (500, 0). -/
theorem parseRaw_fivehundred :
    parseRaw "500".toList = some (false, (500, 0), 0) := by
  decide

/-- The numeric value of the raw numeral (500, 0) is 500. -/
theorem ratOfRaw_fivehundred : ratOfRaw (false, (500, 0), 0) = 500 := by
  norm_num [ratOfRaw]

/-- Claim C9: at aggregation time, every cell of a non-numeric-dtype
selected column coerces to a nonnegative number — the strip removes the
minus sign before parsing — and in particular the textual negatives
"-500" and "($500)" both coerce to positive 500. -/
theorem claim9_negative_coercion :
    (∀ col, isNumericDtype col = false →
      ∀ c ∈ aggCoerceCol col, ∃ q, c = .num q ∧ 0 ≤ q) ∧
    aggCoerceCol [Cell.str "-500", Cell.str "($500)"]
      = [Cell.num 500, Cell.num 500] := by
  constructor
  · intro col hcol c hc
    rw [aggCoerceCol, if_neg (by simp [hcol])] at hc
    simp only [List.map_map, List.mem_map, Function.comp] at hc
    obtain ⟨b, _, rfl⟩ := hc
    obtain ⟨q, heq, hq, _⟩ := sheetsCoerceCell_spec b
    refine ⟨q, ?_, hq⟩
    rw [← heq]
    rfl
  · have h1 : isNumericDtype [Cell.str "-500", Cell.str "($500)"] = false := by
      decide
    have h2 : [Cell.str "-500", Cell.str "($500)"].map stripCellStr
        = [Cell.str "500", Cell.str "500"] := by decide
    rw [aggCoerceCol, if_neg (by simp [h1]), h2]
    have h3 : parseNumeric "500" = some 500 := by
      rw [parseNumeric, parseChars, parseRaw_fivehundred]
      simp [ratOfRaw_fivehundred]
    simp [toNumericCell, parseCell, h3, fillZero]

/-- Claim C9 witness: the general statement applied to the singleton
stripped column, at the cell it produces. -/
theorem claim9_witness : ∃ q, Cell.num 500 = Cell.num q ∧ 0 ≤ q := by
  refine claim9_negative_coercion.1 [Cell.str "-500", Cell.str "($500)"]
    (by decide) (Cell.num 500) ?_
  rw [claim9_negative_coercion.2]
  exact List.mem_cons_self _ _

/-- Finding a column by name in a name-preserving column-wise transform
of a duplicate-free table returns the transform of that column. -/
theorem find?_map_name_preserving (cols : List (String × List Cell))
    (F : String × List Cell → String × List Cell)
    (hF : ∀ p, (F p).1 = p.1) (hnd : (cols.map Prod.fst).Nodup)
    (q : String × List Cell) (hq : q ∈ cols) :
    (cols.map F).find? (fun p => p.1 == q.1) = some (F q) := by
  induction cols with
  | nil => cases hq
  | cons a l ih =>
    rw [List.map_cons] at hnd ⊢
    have hnd' := List.nodup_cons.mp hnd
    rcases List.mem_cons.mp hq with rfl | hq'
    · rw [List.find?_cons_of_pos]
      rw [hF]
      exact beq_self_eq_true _
    · rw [List.find?_cons_of_neg]
      · exact ih hnd'.2 hq'
      · have hane : ¬(a.1 = q.1) := by
          intro he
          exact hnd'.1 (he ▸ List.mem_map.mpr ⟨q, hq', rfl⟩)
        rw [hF]
        simp [hane]

/-- The Sheets coercion agrees cell-wise with the spec's wording. -/
theorem sheetsCoerceCell_eq_spec (c : Cell) :
    sheetsCoerceCell c = specNormalizeCell c := by
  rw [sheetsCoerceCell, parseCell, specNormalizeCell]
  cases parseNumeric (stripNonNumeric (cellToStr c)) <;> simp [fillZero]

/-- Claim C3 (amended): for duplicate-free tables, the Google-Sheets
Normalizer is exactly the spec's strip-parse-fill pipeline; the
file-ingestion Normalizer leaves non-matching columns untouched and
transforms matching columns cell-wise by parse-then-fill with no
stripping step, so its unparseable and missing cells map to 0. -/
theorem claim3_normalizers (t : Table) (hnd : (colNames t).Nodup) :
    normalizeSheets t = normalizeSpec ingestVocab t ∧
    (∀ q ∈ t.cols, nameMatches ingestVocab q.1 = false →
      findColData (normalizeIngest t) q.1 = some q.2 ∧
      findColData (normalizeSheets t) q.1 = some q.2) ∧
    (∀ q ∈ t.cols, nameMatches ingestVocab q.1 = true →
      findColData (normalizeIngest t) q.1 = some (q.2.map ingestCoerceCell)) ∧
    (∀ s, parseNumeric s = none → ingestCoerceCell (.str s) = .num 0) ∧
    ingestCoerceCell .missing = .num 0 := by
  have hFsheets : ∀ p : String × List Cell,
      ((if nameMatches ingestVocab p.1 then (p.1, p.2.map sheetsCoerceCell) else p)).1
        = p.1 := by
    intro p
    by_cases h : nameMatches ingestVocab p.1 = true <;> simp [h]
  have hFingest : ∀ p : String × List Cell,
      ((if nameMatches ingestVocab p.1 then (p.1, p.2.map ingestCoerceCell) else p)).1
        = p.1 := by
    intro p
    by_cases h : nameMatches ingestVocab p.1 = true <;> simp [h]
  refine ⟨?_, ?_, ?_, ?_, rfl⟩
  · rw [normalizeSheets, normalizeSpec]
    refine congrArg _ ?_
    refine List.map_congr_left ?_
    intro p _
    by_cases h : nameMatches ingestVocab p.1 = true
    · rw [if_pos h, if_pos h]
      exact congrArg _ (List.map_congr_left fun c _ => sheetsCoerceCell_eq_spec c)
    · rw [if_neg h, if_neg h]
  · intro q hq hmatch
    constructor
    · rw [normalizeIngest, findColData]
      rw [find?_map_name_preserving t.cols _ hFingest hnd q hq]
      rw [if_neg (by simp [hmatch])]
      rfl
    · rw [normalizeSheets, findColData]
      rw [find?_map_name_preserving t.cols _ hFsheets hnd q hq]
      rw [if_neg (by simp [hmatch])]
      rfl
  · intro q hq hmatch
    rw [normalizeIngest, findColData]
    rw [find?_map_name_preserving t.cols _ hFingest hnd q hq]
    rw [if_pos hmatch]
    rfl
  · intro s h
    simp [ingestCoerceCell, toNumericCell, parseCell, h, fillZero]

/-- The stripped form of the currency string. -/
theorem strip_currency : stripNonNumeric "$500" = "500" := by decide

/-- Claim C3 counterexample: the file-ingestion Normalizer does not
strip before parsing — the matching cell "$500" coerces to 0 there,
while the spec's strip-first pipeline yields 500 on the same table, so
the two differ. -/
theorem claim3_counterexample :
    findColData (normalizeIngest cexTable) "Base Salary" = some [Cell.num 0] ∧
    findColData (normalizeSpec ingestVocab cexTable) "Base Salary"
      = some [Cell.num 500] ∧
    normalizeIngest cexTable ≠ normalizeSpec ingestVocab cexTable := by
  have h3 : parseNumeric "500" = some 500 := by
    rw [parseNumeric, parseChars, parseRaw_fivehundred]
    simp [ratOfRaw_fivehundred]
  have hcell : specNormalizeCell (.str "$500") = .num 500 := by
    rw [specNormalizeCell, cellToStr, strip_currency, h3]
  have htab : normalizeSpec ingestVocab cexTable
      = ⟨1, [("Base Salary", [Cell.num 500]), ("Name", [Cell.str "Ann"])]⟩ := by
    rw [normalizeSpec]
    simp only [cexTable, List.map_cons, List.map_nil]
    rw [if_pos (by decide), if_neg (by decide), hcell]
  have hing : normalizeIngest cexTable
      = ⟨1, [("Base Salary", [Cell.num 0]), ("Name", [Cell.str "Ann"])]⟩ := by
    decide
  refine ⟨by rw [hing]; decide, by rw [htab]; decide, ?_⟩
  rw [hing, htab]
  decide

/-- Claim C3 witness: the amended statement instantiated on the concrete
table — the non-matching "Name" column is untouched by ingestion. -/
theorem claim3_witness :
    findColData (normalizeIngest cexTable) "Name" = some [Cell.str "Ann"] :=
  ((claim3_normalizers cexTable (by decide)).2.1 ("Name", [Cell.str "Ann"])
    (by decide) (by decide)).1

/-- With sufficient fuel, the extracted power of a factor divides the
number. -/
theorem countFactorFuel_pow_dvd (p : Nat) :
    ∀ fuel n, n ≤ fuel → p ^ countFactorFuel p fuel n ∣ n := by
  intro fuel
  induction fuel with
  | zero =>
    intro n _
    rw [countFactorFuel, pow_zero]
    exact one_dvd n
  | succ fuel ih =>
    intro n hle
    rw [countFactorFuel]
    by_cases h : 1 < p ∧ 0 < n ∧ p ∣ n
    · rw [if_pos h, pow_succ]
      have hlt : n / p < n := Nat.div_lt_self h.2.1 h.1
      calc p ^ countFactorFuel p fuel (n / p) * p ∣ (n / p) * p :=
            mul_dvd_mul_right (ih (n / p) (by omega)) p
        _ = n := Nat.div_mul_cancel h.2.2
    · rw [if_neg h, pow_zero]
      exact one_dvd n

/-- The extracted power of a factor divides the number. -/
theorem countFactor_pow_dvd (p : Nat) : ∀ n, p ^ countFactor p n ∣ n :=
  fun n => countFactorFuel_pow_dvd p n n (le_refl n)

/-- With sufficient fuel, after extracting every power of the factor,
none remains. -/
theorem countFactorFuel_not_dvd (p : Nat) (hp : 1 < p) :
    ∀ fuel n, 0 < n → n ≤ fuel → ¬ p ∣ n / p ^ countFactorFuel p fuel n := by
  intro fuel
  induction fuel with
  | zero =>
    intro n hn hle
    omega
  | succ fuel ih =>
    intro n hn hle
    rw [countFactorFuel]
    by_cases h : 1 < p ∧ 0 < n ∧ p ∣ n
    · rw [if_pos h]
      have hlt : n / p < n := Nat.div_lt_self h.2.1 h.1
      have hq : 0 < n / p :=
        Nat.div_pos (Nat.le_of_dvd hn h.2.2) (lt_trans zero_lt_one hp)
      have := ih (n / p) hq (by omega)
      have hrw : n / p ^ (countFactorFuel p fuel (n / p) + 1)
          = n / p / p ^ countFactorFuel p fuel (n / p) := by
        rw [Nat.div_div_eq_div_mul, pow_succ]
        ring_nf
      rw [hrw]
      exact this
    · rw [if_neg h, pow_zero, Nat.div_one]
      simp only [hp, hn, true_and] at h
      exact h

/-- After extracting every power of the factor, none remains. -/
theorem countFactor_not_dvd (p : Nat) (hp : 1 < p) :
    ∀ n, 0 < n → ¬ p ∣ n / p ^ countFactor p n :=
  fun n hn => countFactorFuel_not_dvd p hp n n hn (le_refl n)

/-- A divisor of a power of ten divides the power of ten given by its
own factorization into twos and fives. -/
theorem smooth_dvd_pow10 (d m : Nat) (hd : d ∣ 10 ^ m) :
    d ∣ 10 ^ decExp d := by
  have hd0 : d ≠ 0 := by
    intro h
    rw [h] at hd
    exact absurd (Nat.eq_zero_of_zero_dvd hd) (pow_ne_zero m (by norm_num))
  have hdpos : 0 < d := Nat.pos_of_ne_zero hd0
  have h2a : 2 ^ countFactor 2 d ∣ d := countFactor_pow_dvd 2 d
  have hr : d / 2 ^ countFactor 2 d * 2 ^ countFactor 2 d = d :=
    Nat.div_mul_cancel h2a
  set a := countFactor 2 d with ha
  set r := d / 2 ^ a with hrdef
  have hrpos : 0 < r :=
    Nat.div_pos (Nat.le_of_dvd hdpos h2a) (pow_pos (by norm_num) a)
  have h2r : ¬ 2 ∣ r := countFactor_not_dvd 2 (by norm_num) d hdpos
  have h5b : 5 ^ countFactor 5 r ∣ r := countFactor_pow_dvd 5 r
  have hs : r / 5 ^ countFactor 5 r * 5 ^ countFactor 5 r = r :=
    Nat.div_mul_cancel h5b
  set b := countFactor 5 r with hb
  set s := r / 5 ^ b with hsdef
  have h5s : ¬ 5 ∣ s := countFactor_not_dvd 5 (by norm_num) r hrpos
  have hsr : s ∣ r := ⟨5 ^ b, hs.symm⟩
  have h2s : ¬ 2 ∣ s := fun hdvd => h2r (hdvd.trans hsr)
  have hsd : s ∣ d := hsr.trans ⟨2 ^ a, hr.symm⟩
  have hcop : Nat.Coprime s 10 := by
    have c2 : Nat.Coprime s 2 := (Nat.prime_two.coprime_iff_not_dvd.mpr h2s).symm
    have c5 : Nat.Coprime s 5 := (Nat.prime_five.coprime_iff_not_dvd.mpr h5s).symm
    have h10 : (10 : ℕ) = 2 * 5 := by norm_num
    rw [h10]
    exact Nat.Coprime.mul_right c2 c5
  have hs1 : s = 1 :=
    (Nat.Coprime.pow_right m hcop).eq_one_of_dvd (hsd.trans hd)
  have hr5 : r = 5 ^ b := by
    rw [← hs, hs1, one_mul]
  have hd_eq : d = 2 ^ a * 5 ^ b := by
    rw [← hr, hr5]
    ring
  have hexp : decExp d = b + a := rfl
  rw [hexp, hd_eq]
  have h10pow : (10 : ℕ) ^ (b + a) = 2 ^ (b + a) * 5 ^ (b + a) := by
    rw [← Nat.mul_pow]
  rw [h10pow]
  exact mul_dvd_mul (pow_dvd_pow 2 (Nat.le_add_left a b))
    (pow_dvd_pow 5 (Nat.le_add_right b a))

/-- Facts about decimal digit characters. -/
theorem digitChar_spec : ∀ d, d < 10 → (Nat.digitChar d).isDigit = true ∧
    (Nat.digitChar d).toNat - 48 = d := by
  decide

/-- With sufficient fuel, every printed character is a digit. -/
theorem natDigitsAux_digits :
    ∀ fuel n, n ≤ fuel → ∀ c ∈ natDigitsAux fuel n, c.isDigit = true := by
  intro fuel
  induction fuel with
  | zero =>
    intro n _ c hc
    rw [natDigitsAux] at hc
    cases hc
  | succ fuel ih =>
    intro n hle c hc
    rw [natDigitsAux] at hc
    by_cases h : n = 0
    · rw [if_pos h] at hc
      cases hc
    · rw [if_neg h, List.mem_append] at hc
      rcases hc with hc | hc
      · have hdiv : n / 10 ≤ fuel := by
          have : n / 10 < n := Nat.div_lt_self (Nat.pos_of_ne_zero h) (by norm_num)
          omega
        exact ih (n / 10) hdiv c hc
      · rw [List.mem_singleton] at hc
        subst hc
        exact (digitChar_spec (n % 10) (Nat.mod_lt n (by norm_num))).1

/-- Every character of a printed natural is a digit. -/
theorem natDigits_digits (n : Nat) : ∀ c ∈ natDigits n, c.isDigit = true := by
  intro c hc
  rw [natDigits] at hc
  by_cases h : n = 0
  · rw [if_pos h] at hc
    simp only [List.mem_singleton] at hc
    subst hc
    decide
  · rw [if_neg h] at hc
    exact natDigitsAux_digits n n (le_refl n) c hc

/-- With sufficient fuel, printing then reading is the identity. -/
theorem natDigitsAux_val :
    ∀ fuel n, n ≤ fuel → digitsToNat (natDigitsAux fuel n) = n := by
  intro fuel
  induction fuel with
  | zero =>
    intro n hle
    have : n = 0 := by omega
    subst this
    rfl
  | succ fuel ih =>
    intro n hle
    rw [natDigitsAux]
    by_cases h : n = 0
    · rw [if_pos h, h]
      rfl
    · rw [if_neg h, digitsToNat, List.foldl_append]
      have hdiv : n / 10 ≤ fuel := by
        have : n / 10 < n := Nat.div_lt_self (Nat.pos_of_ne_zero h) (by norm_num)
        omega
      simp only [List.foldl_cons, List.foldl_nil]
      rw [← digitsToNat, ih (n / 10) hdiv,
        (digitChar_spec (n % 10) (Nat.mod_lt n (by norm_num))).2]
      omega

/-- Printing then reading a natural is the identity. -/
theorem digitsToNat_natDigits (n : Nat) : digitsToNat (natDigits n) = n := by
  rw [natDigits]
  by_cases h : n = 0
  · rw [if_pos h, h]
    decide
  · rw [if_neg h]
    exact natDigitsAux_val n n (le_refl n)

/-- A printed natural is never the empty string. -/
theorem natDigits_ne_nil (n : Nat) : natDigits n ≠ [] := by
  rw [natDigits]
  by_cases h : n = 0
  · rw [if_pos h]
    simp
  · rw [if_neg h]
    cases hn : n with
    | zero => exact absurd hn h
    | succ m =>
      rw [natDigitsAux]
      simp

/-- With sufficient fuel, a natural below `10 ^ k` prints in at most `k`
digits. -/
theorem natDigitsAux_length_le :
    ∀ fuel n k, n ≤ fuel → n < 10 ^ k → (natDigitsAux fuel n).length ≤ k := by
  intro fuel
  induction fuel with
  | zero =>
    intro n k _ _
    rw [natDigitsAux]
    simp
  | succ fuel ih =>
    intro n k hle hlt
    rw [natDigitsAux]
    by_cases h : n = 0
    · rw [if_pos h]
      simp
    · rw [if_neg h, List.length_append]
      cases k with
      | zero =>
        rw [pow_zero] at hlt
        omega
      | succ k =>
        have hdivle : n / 10 ≤ fuel := by
          have : n / 10 < n := Nat.div_lt_self (Nat.pos_of_ne_zero h) (by norm_num)
          omega
        have hdivlt : n / 10 < 10 ^ k := by
          rw [Nat.div_lt_iff_lt_mul (by norm_num : (0 : ℕ) < 10)]
          rw [pow_succ] at hlt
          exact hlt
        have := ih (n / 10) k hdivle hdivlt
        simp only [List.length_singleton]
        omega

/-- A natural below `10 ^ k` prints in at most `k` digits. -/
theorem natDigits_length_le (n k : Nat) (hk : 0 < k) (hn : n < 10 ^ k) :
    (natDigits n).length ≤ k := by
  rw [natDigits]
  by_cases h : n = 0
  · rw [if_pos h]
    simpa using hk
  · rw [if_neg h]
    exact natDigitsAux_length_le n n k (le_refl n) hn

/-- A digit character is not the decimal point. -/
theorem isDigit_ne_dot (c : Char) (h : c.isDigit = true) : ¬(c = '.') := by
  rintro rfl
  exact absurd h (by decide)

/-- Zero padding does not change the numeric reading. -/
theorem digitsToNat_padZeros (k : Nat) (l : List Char) :
    digitsToNat (padZeros k l) = digitsToNat l := by
  rw [padZeros, digitsToNat, List.foldl_append]
  have h : ∀ m, List.foldl (fun n c => n * 10 + (c.toNat - 48)) 0
      (List.replicate m '0') = 0 := by
    intro m
    induction m with
    | zero => rfl
    | succ m ih =>
      rw [List.replicate_succ, List.foldl_cons]
      simpa using ih
  rw [h]
  rfl

/-- Padding to a sufficient width gives exactly that width. -/
theorem padZeros_length (k : Nat) (l : List Char) (h : l.length ≤ k) :
    (padZeros k l).length = k := by
  rw [padZeros, List.length_append, List.length_replicate]
  omega

/-- Padding a digit string with zeros keeps it a digit string. -/
theorem padZeros_digits (k : Nat) (l : List Char)
    (h : ∀ c ∈ l, c.isDigit = true) :
    ∀ c ∈ padZeros k l, c.isDigit = true := by
  intro c hc
  rw [padZeros, List.mem_append] at hc
  rcases hc with hc | hc
  · rw [List.mem_replicate] at hc
    rw [hc.2]
    decide
  · exact h c hc

/-- Splitting a dot-free string finds no fractional part. -/
theorem splitDot_no_dot (l : List Char) (h : ¬('.' ∈ l)) :
    splitDot l = (l, none) := by
  induction l with
  | nil => rfl
  | cons c t ih =>
    rw [splitDot]
    rw [if_neg (fun he => h (List.mem_cons.mpr (Or.inl he.symm)))]
    rw [ih (fun ht => h (List.mem_cons_of_mem c ht))]

/-- Splitting at the first dot separates the two parts. -/
theorem splitDot_append (w f : List Char) (h : ¬('.' ∈ w)) :
    splitDot (w ++ '.' :: f) = (w, some f) := by
  induction w with
  | nil => rw [List.nil_append, splitDot, if_pos rfl]
  | cons c t ih =>
    rw [List.cons_append, splitDot]
    rw [if_neg (fun he => h (List.mem_cons.mpr (Or.inl he.symm)))]
    rw [ih (fun ht => h (List.mem_cons_of_mem c ht))]

/-- Parsing a plain digit string yields its value at scale zero. -/
theorem parseRawU_no_dot (l : List Char) (hne : l ≠ [])
    (hdig : ∀ c ∈ l, c.isDigit = true) :
    parseRawU l = some (digitsToNat l, 0) := by
  have hsplit : splitDot l = (l, none) :=
    splitDot_no_dot l (fun hdot => isDigit_ne_dot '.' (hdig '.' hdot) rfl)
  have hcond : (!l.isEmpty && allDigits l) = true := by
    rw [Bool.and_eq_true]
    refine ⟨?_, ?_⟩
    · cases l with
      | nil => exact absurd rfl hne
      | cons a t => rfl
    · rw [allDigits, List.all_eq_true]
      exact hdig
  unfold parseRawU
  rw [hsplit]
  simp [hcond]

/-- Parsing digits-point-digits yields the scaled value. -/
theorem parseRawU_with_dot (w f : List Char) (hwne : w ≠ [])
    (hw : ∀ c ∈ w, c.isDigit = true) (hf : ∀ c ∈ f, c.isDigit = true) :
    parseRawU (w ++ '.' :: f)
      = some (digitsToNat w * 10 ^ f.length + digitsToNat f, f.length) := by
  have hsplit : splitDot (w ++ '.' :: f) = (w, some f) :=
    splitDot_append w f (fun hdot => isDigit_ne_dot '.' (hw '.' hdot) rfl)
  have hcond : ((!w.isEmpty || !f.isEmpty) && allDigits w && allDigits f) = true := by
    rw [Bool.and_eq_true, Bool.and_eq_true]
    refine ⟨⟨?_, ?_⟩, ?_⟩
    · cases w with
      | nil => exact absurd rfl hwne
      | cons a t => rfl
    · rw [allDigits, List.all_eq_true]
      exact hw
    · rw [allDigits, List.all_eq_true]
      exact hf
  unfold parseRawU
  rw [hsplit]
  simp [hcond]

/-- Every character of the decimal rendering survives the strip. -/
theorem decChars_digitOrDot (q : ℚ) : ∀ c ∈ decChars q, isDigitOrDot c = true := by
  intro c hc
  rw [decChars] at hc
  by_cases h : decExp q.den = 0
  · rw [if_pos h] at hc
    exact (isDigitOrDot_iff c).mpr (Or.inl (natDigits_digits _ c hc))
  · rw [if_neg h, List.mem_append] at hc
    rcases hc with hc | hc
    · exact (isDigitOrDot_iff c).mpr (Or.inl (natDigits_digits _ c hc))
    · rcases List.mem_cons.mp hc with rfl | hc'
      · decide
      · exact (isDigitOrDot_iff c).mpr
          (Or.inl (padZeros_digits _ _ (natDigits_digits _) c hc'))

/-- Reading back the decimal rendering of a nonnegative rational whose
denominator divides a power of ten recovers it exactly (the analogue of
CPython's `float(str(x)) == x` round trip). -/
theorem parseChars_decChars (q : ℚ) (hq : 0 ≤ q)
    (hden : ∃ m, q.den ∣ 10 ^ m) : parseChars (decChars q) = some q := by
  obtain ⟨m, hm⟩ := hden
  have hk := smooth_dvd_pow10 q.den m hm
  have hdpos : 0 < q.den := q.den_pos
  have hden_ne : ((q.den : ℕ) : ℚ) ≠ 0 := by
    exact_mod_cast hdpos.ne'
  have hnum0 : (0 : ℤ) ≤ q.num := Rat.num_nonneg.mpr hq
  have hMden : (q.num.toNat * (10 ^ decExp q.den / q.den)) * q.den
      = q.num.toNat * 10 ^ decExp q.den := by
    rw [mul_assoc, Nat.div_mul_cancel hk]
  have hqden : q * ((q.den : ℕ) : ℚ) = ((q.num : ℤ) : ℚ) :=
    ((div_eq_iff hden_ne).mp (Rat.num_div_den q)).symm
  have hMq : ((q.num.toNat * (10 ^ decExp q.den / q.den) : ℕ) : ℚ)
      = q * (10 : ℚ) ^ decExp q.den := by
    have h1 := congrArg (fun n : ℕ => (n : ℚ)) hMden
    push_cast at h1
    have h2 : ((q.num.toNat : ℕ) : ℚ) = ((q.num : ℤ) : ℚ) := by
      exact_mod_cast congrArg (fun z : ℤ => (z : ℚ)) (Int.toNat_of_nonneg hnum0)
    rw [h2] at h1
    refine mul_right_cancel₀ hden_ne ?_
    push_cast [h2]
    rw [h1, ← hqden]
    ring
  have hchars := decChars_digitOrDot q
  rw [parseChars, parseRaw_digitOrDot _ hchars]
  by_cases hk0 : decExp q.den = 0
  · have hden1 : q.den = 1 := by
      rw [hk0, pow_zero] at hk
      exact Nat.dvd_one.mp hk
    rw [decChars, if_pos hk0]
    rw [parseRawU_no_dot _ (natDigits_ne_nil _) (natDigits_digits _)]
    rw [digitsToNat_natDigits]
    rw [Option.map_map]
    simp only [Option.map_some']
    refine congrArg some ?_
    simp only [Function.comp, ratOfRaw]
    simp only [if_neg Bool.false_ne_true]
    rw [hk0] at hMq ⊢
    rw [hden1] at hMq ⊢
    norm_num at hMq ⊢
    exact hMq
  · rw [decChars, if_neg hk0]
    rw [parseRawU_with_dot _ _ (natDigits_ne_nil _) (natDigits_digits _)
      (padZeros_digits _ _ (natDigits_digits _))]
    have hmodlt : q.num.toNat * (10 ^ decExp q.den / q.den) % 10 ^ decExp q.den
        < 10 ^ decExp q.den :=
      Nat.mod_lt _ (pow_pos (by norm_num) _)
    have hflen : (padZeros (decExp q.den)
        (natDigits (q.num.toNat * (10 ^ decExp q.den / q.den) % 10 ^ decExp q.den))).length
        = decExp q.den :=
      padZeros_length _ _
        (natDigits_length_le _ _ (Nat.pos_of_ne_zero hk0) hmodlt)
    rw [hflen, digitsToNat_natDigits, digitsToNat_padZeros, digitsToNat_natDigits]
    have hdm : q.num.toNat * (10 ^ decExp q.den / q.den) / 10 ^ decExp q.den
          * 10 ^ decExp q.den
        + q.num.toNat * (10 ^ decExp q.den / q.den) % 10 ^ decExp q.den
        = q.num.toNat * (10 ^ decExp q.den / q.den) := by
      rw [mul_comm]
      exact Nat.div_add_mod _ _
    rw [hdm]
    rw [Option.map_map]
    simp only [Option.map_some']
    refine congrArg some ?_
    simp only [Function.comp, ratOfRaw]
    simp only [if_neg Bool.false_ne_true]
    rw [hMq]
    have hpow_ne : ((10 : ℚ)) ^ decExp q.den ≠ 0 := by positivity
    push_cast
    field_simp

/-- On a nonnegative fixed-notation value with a ten-smooth denominator
the Sheets coercion is the identity: the value stringifies positionally,
survives the strip and parses back to itself. -/
theorem sheetsCoerce_num_fixed (q : ℚ) (hq : 0 ≤ q)
    (hden : ∃ m, q.den ∣ 10 ^ m) (hfix : usesSci q = false) :
    sheetsCoerceCell (.num q) = .num q := by
  rw [sheetsCoerceCell, cellToStr, decRepr, if_neg (not_lt.mpr hq)]
  have hfc : floatChars q = decChars q := by
    rw [floatChars, if_neg (by simp [hfix])]
  rw [hfc]
  have hstrip : stripNonNumeric ⟨decChars q⟩ = ⟨decChars q⟩ := by
    rw [stripNonNumeric]
    refine congrArg _ ?_
    exact List.filter_eq_self.mpr (decChars_digitOrDot q)
  rw [hstrip, parseCell, parseNumeric]
  have htl : (⟨decChars q⟩ : String).toList = decChars q := rfl
  rw [htl, parseChars_decChars q hq hden]
  rfl

/-- The file-ingestion coercion is idempotent on cells: its output is
always numeric, on which the coercion acts as the identity. -/
theorem ingestCoerceCell_idem (c : Cell) :
    ingestCoerceCell (ingestCoerceCell c) = ingestCoerceCell c := by
  cases c with
  | num q => rfl
  | missing => rfl
  | str s =>
    have h : ingestCoerceCell (.str s) = fillZero (parseCell s) := rfl
    rw [h, parseCell]
    cases parseNumeric s with
    | some q => rfl
    | none => rfl

/-- The reduced fraction `q100k` is the rational `1 / 100000`. -/
theorem q100k_eq : q100k = 1 / 100000 := by
  have h := Rat.num_div_den q100k
  rw [show q100k.num = 1 from rfl, show q100k.den = 100000 from rfl] at h
  rw [← h]
  norm_num

/-- The parsed value of the raw numeral of "0.00001". -/
theorem ratOfRaw_small : ratOfRaw (false, (1, 5), 0) = q100k := by
  rw [q100k_eq]
  norm_num [ratOfRaw]

/-- The first Sheets normalization of the table holding "0.00001"
produces the numeric value `1e-05`. -/
theorem normalizeSheets_sciCex :
    normalizeSheets sciCex = ⟨1, [("Base Salary", [Cell.num q100k])]⟩ := by
  have hp : parseRaw "0.00001".toList = some (false, (1, 5), 0) := by decide
  have hs : stripNonNumeric "0.00001" = "0.00001" := by decide
  have hcell : sheetsCoerceCell (.str "0.00001") = .num q100k := by
    rw [sheetsCoerceCell, cellToStr, hs, parseCell, parseNumeric, parseChars, hp]
    simp [ratOfRaw_small, fillZero]
  rw [normalizeSheets]
  simp only [sciCex, List.map_cons, List.map_nil]
  rw [if_pos (by decide)]
  simp only [List.map_cons, List.map_nil, hcell]

/-- Re-coercing `1e-05` mangles it: `str()` renders it in scientific
notation, the strip deletes `e` and `-`, and `"105"` parses as 105. -/
theorem sheetsCoerce_q100k : sheetsCoerceCell (.num q100k) = .num 105 := by
  have hrep : decRepr q100k = "1e-05" := by decide
  have hs : stripNonNumeric "1e-05" = "105" := by decide
  have hp : parseRaw "105".toList = some (false, (105, 0), 0) := by decide
  have hv : ratOfRaw (false, (105, 0), 0) = 105 := by norm_num [ratOfRaw]
  rw [sheetsCoerceCell, cellToStr, hrep, hs, parseCell, parseNumeric, parseChars, hp]
  simp [hv, fillZero]

/-- Claim C5 counterexample: the Sheets Normalizer is not idempotent.
The cell "0.00001" coerces to `1e-05` on the first pass; on the second
pass `str()` renders it as "1e-05", the `[^\d.]` strip turns that into
"105", and the value becomes 105, so normalizing twice differs from
normalizing once. -/
theorem claim5_counterexample :
    normalizeSheets (normalizeSheets sciCex) ≠ normalizeSheets sciCex ∧
    lookupCol (normalizeSheets sciCex) "Base Salary"
      = [Cell.num (1 / 100000)] ∧
    lookupCol (normalizeSheets (normalizeSheets sciCex)) "Base Salary"
      = [Cell.num 105] := by
  have h2 : normalizeSheets (⟨1, [("Base Salary", [Cell.num q100k])]⟩ : Table)
      = ⟨1, [("Base Salary", [Cell.num 105])]⟩ := by
    rw [normalizeSheets]
    simp only [List.map_cons, List.map_nil]
    rw [if_pos (by decide)]
    simp only [List.map_cons, List.map_nil, sheetsCoerce_q100k]
  refine ⟨?_, ?_, ?_⟩
  · rw [normalizeSheets_sciCex, h2]
    decide
  · rw [normalizeSheets_sciCex, ← q100k_eq]
    decide
  · rw [normalizeSheets_sciCex, h2]
    decide

/-- Claim C5 (amended): the file-ingestion Normalizer is idempotent on
every table; the Sheets Normalizer is idempotent on every table whose
normalized numeric cells all render in fixed (non-scientific) notation
— in particular re-coercing an already-numeric matching column in that
range leaves it unchanged — but not in general (see the
counterexample, where a value below `1e-04` is re-coerced to a
different number). -/
theorem claim5_normalize_idem :
    (∀ t, normalizeIngest (normalizeIngest t) = normalizeIngest t) ∧
    (∀ t, (∀ p ∈ (normalizeSheets t).cols, ∀ c ∈ p.2, cellFixed c = true) →
      normalizeSheets (normalizeSheets t) = normalizeSheets t) := by
  constructor
  · intro t
    rw [normalizeIngest, normalizeIngest]
    refine congrArg (fun cs => Table.mk t.nrows cs) ?_
    rw [List.map_map]
    refine List.map_congr_left ?_
    intro p _
    by_cases h : nameMatches ingestVocab p.1 = true
    · simp only [Function.comp, if_pos h]
      rw [List.map_map]
      refine congrArg _ ?_
      exact List.map_congr_left fun c _ => ingestCoerceCell_idem c
    · simp only [Function.comp, if_neg h]
  · intro t hfix
    rw [normalizeSheets, normalizeSheets]
    refine congrArg (fun cs => Table.mk t.nrows cs) ?_
    rw [List.map_map]
    refine List.map_congr_left ?_
    intro p hp
    by_cases h : nameMatches ingestVocab p.1 = true
    · simp only [Function.comp, if_pos h]
      rw [List.map_map]
      refine congrArg _ ?_
      refine List.map_congr_left ?_
      intro c hc
      have hmem : (p.1, p.2.map sheetsCoerceCell) ∈ (normalizeSheets t).cols := by
        rw [normalizeSheets]
        refine List.mem_map.mpr ⟨p, hp, ?_⟩
        rw [if_pos h]
      have hfixc := hfix _ hmem (sheetsCoerceCell c)
        (List.mem_map.mpr ⟨c, hc, rfl⟩)
      obtain ⟨q, heq, hq, hden⟩ := sheetsCoerceCell_spec c
      rw [heq] at hfixc
      have hsci : usesSci q = false := by
        simpa [cellFixed] using hfixc
      show sheetsCoerceCell (sheetsCoerceCell c) = sheetsCoerceCell c
      rw [heq]
      exact sheetsCoerce_num_fixed q hq hden hsci
    · simp only [Function.comp, if_neg h]

/-- Claim C5 witness: the amended statement applied to a concrete table
whose single matching cell coerces to the fixed-notation value 250. -/
theorem claim5_witness :
    normalizeSheets (normalizeSheets fixTab) = normalizeSheets fixTab := by
  have hv : ratOfRaw (false, (250, 0), 0) = 250 := by norm_num [ratOfRaw]
  have hp : parseRaw "250".toList = some (false, (250, 0), 0) := by decide
  have hcell : sheetsCoerceCell (.str "250") = .num 250 := by
    have hs : stripNonNumeric "250" = "250" := by decide
    rw [sheetsCoerceCell, cellToStr, hs, parseCell, parseNumeric, parseChars, hp]
    simp [hv, fillZero]
  have htab : normalizeSheets fixTab
      = ⟨1, [("Name", [Cell.str "Ann"]), ("Benefits", [Cell.num 250])]⟩ := by
    rw [normalizeSheets]
    simp only [fixTab, List.map_cons, List.map_nil]
    rw [if_neg (by decide), if_pos (by decide)]
    simp only [List.map_cons, List.map_nil, hcell]
  refine claim5_normalize_idem.2 fixTab ?_
  rw [htab]
  decide
